import Mathlib

set_option maxRecDepth 100000

/- Shallow embedding of `preprocess_abbreviations` from
`src/speaking_llm/speech_output.py`.  Strings are modelled as `List Char`;
the character classes of Python `re` (`\b`, `\d`, `\w`, `\s`, `[0-9a-f]`,
`[A-Za-z0-9+/]`) are modelled over ASCII, matching the self-check corpus of
the source.  Each `re.sub` call of the source becomes one scanner pass built
on `subScan`; `re.sub` scans the subject left to right, emits the
replacement for each non-overlapping leftmost match and continues right
after the matched region, with word boundaries evaluated against the
original characters. -/

/-- Python `\w` over ASCII: letters, digits and underscore. -/
def isWordChar (c : Char) : Bool :=
  c.isAlpha || c.isDigit || c == '_'

def isWordOpt : Option Char → Bool
  | none => false
  | some c => isWordChar c

/-- Python regex `\b`: holds between two adjacent positions iff exactly one
side is a word character (positions outside the string count as non-word). -/
def boundaryB (l r : Option Char) : Bool :=
  isWordOpt l != isWordOpt r

/-- Generic substitution scanner with explicit fuel.  A matcher
`f prev c cs` inspects the character `c` at the current position, the
remaining input `cs` and the previous original character `prev`; a match
returns the replacement, the number of extra characters of `cs` consumed
beyond `c`, and the last original character of the matched region.  The
fuel is always instantiated with the length of the subject, which is
adequate because every match consumes at least one character. -/
def subScanF (f : Option Char → Char → List Char → Option (List Char × Nat × Char)) :
    Nat → Option Char → List Char → List Char
  | 0, _, rest => rest
  | _ + 1, _, [] => []
  | fuel + 1, prev, c :: cs =>
    match f prev c cs with
    | some (repl, j, lastC) => repl ++ subScanF f fuel (some lastC) (cs.drop j)
    | none => c :: subScanF f fuel (some c) cs

def subScan (f : Option Char → Char → List Char → Option (List Char × Nat × Char))
    (t : List Char) : List Char :=
  subScanF f t.length none t

/-- Matcher for `re.sub(r'\b' + re.escape(abbrev) + r'\b', expansion, text)`:
the escaped literal `lit` bracketed by word boundaries. -/
def tryLit (lit repl : List Char) (prev : Option Char) (c : Char) (cs : List Char) :
    Option (List Char × Nat × Char) :=
  match lit with
  | [] => none
  | l0 :: lt =>
    let lastL := lt.getLastD l0
    if c == l0 && lt.isPrefixOf cs && boundaryB prev (some c)
        && boundaryB (some lastL) ((cs.drop lt.length).head?) then
      some (repl, lt.length, lastL)
    else none

/-- The literal abbreviation table, in the insertion order of the source's
dict (Python dicts iterate in insertion order). -/
def abbrevTable : List (String × String) := [
  ("MBps", "megabytes per second"),
  ("Mbps", "megabits per second"),
  ("GBps", "gigabytes per second"),
  ("Gbps", "gigabits per second"),
  ("KBps", "kilobytes per second"),
  ("Kbps", "kilobits per second"),
  ("KiB/s", "kilobytes per second"),
  ("Bytes/s", "bytes per second"),
  ("MB", "megabytes"),
  ("GB", "gigabytes"),
  ("TB", "terabytes"),
  ("KB", "kilobytes"),
  ("PB", "petabytes"),
  ("MHz", "megahertz"),
  ("GHz", "gigahertz"),
  ("kHz", "kilohertz"),
  ("mW", "milliwatts"),
  ("W", "watts"),
  ("kW", "kilowatts"),
  ("ms", "milliseconds"),
  ("0 us", "0"),
  ("us", "microseconds"),
  ("ns", "nanoseconds"),
  ("JSON", "jay son"),
  ("YAML", "yah ml")]

def abbrevPass (t : List Char) : List Char :=
  abbrevTable.foldl (fun acc p => subScan (tryLit p.1.data p.2.data) acc) t

/-- Value of a digit string, as Python `int` on a string of digits. -/
def natOfDigits (ds : List Char) : Nat :=
  ds.foldl (fun n c => 10 * n + (c.toNat - '0'.toNat)) 0

def natToChars (n : Nat) : List Char :=
  (Nat.repr n).data

/-- Bit length of a natural number, with explicit fuel (the fuel is always
instantiated with the number itself, which bounds the bit count). -/
def bitLenF : Nat → Nat → Nat
  | 0, _ => 0
  | _ + 1, 0 => 0
  | f + 1, n => bitLenF f (n / 2) + 1

def bitLen (n : Nat) : Nat := bitLenF n n

/-- Decides `a * 2^k ≤ b` for an integer exponent `k`. -/
def le2 (a b : Nat) (k : Int) : Bool :=
  match k with
  | Int.ofNat n => a * 2 ^ n ≤ b
  | Int.negSucc n => a ≤ b * 2 ^ (n + 1)

/-- For positive `num`, `den`: the unique `k` with `2^k ≤ num/den < 2^(k+1)`. -/
def floorLog2 (num den : Nat) : Int :=
  let k0 : Int := (bitLen num : Int) - (bitLen den : Int)
  if le2 den num k0 then k0 else k0 - 1

/-- Integer division rounded to nearest, ties to even. -/
def rneDiv (a b : Nat) : Nat :=
  let q := a / b
  let r := a % b
  if b < 2 * r then q + 1
  else if 2 * r < b then q
  else if q % 2 = 1 then q + 1 else q

/-- CPython `int / int` true division: the IEEE-754 double nearest to
`num / den` (round to nearest, ties to even, 53-bit mantissa), returned as
a mantissa/exponent pair `(m, k)` with value `m * 2^(k-52)` and
`2^52 ≤ m < 2^53` (or `(0, 0)` for zero).  Raises `OverflowError` when the
correctly rounded quotient reaches `2^1024`, as CPython's
`long_true_divide` does. -/
def floatDiv (num den : Nat) : Except String (Nat × Int) :=
  if num == 0 then Except.ok (0, 0)
  else
    let k := floorLog2 num den
    let m0 :=
      match (52 - k : Int) with
      | Int.ofNat n => rneDiv (num * 2 ^ n) den
      | Int.negSucc n => rneDiv num (den * 2 ^ (n + 1))
    let p := if m0 == 2 ^ 53 then (2 ^ 52, k + 1) else (m0, k)
    if 1024 ≤ p.2 then
      Except.error "OverflowError: integer division result too large for a float"
    else Except.ok p

/-- Python `format(x, '.1f')` for a nonnegative double `x = m * 2^(k-52)`:
the decimal string with one fractional digit closest to the exact binary
value, ties to even (CPython formats floats correctly rounded). -/
def fmtDot1 (m : Nat) (k : Int) : List Char :=
  let q :=
    match (52 - k : Int) with
    | Int.ofNat n => rneDiv (10 * m) (2 ^ n)
    | Int.negSucc n => 10 * m * 2 ^ (n + 1)
  natToChars (q / 10) ++ '.' :: natToChars (q % 10)

/-- Python `f"{num / den:.1f}"` with the exception made explicit: the float
division may raise `OverflowError`; otherwise the resulting double is
formatted with one decimal digit. -/
def fmtOneDecimalE (num den : Nat) : Except String (List Char) :=
  match floatDiv num den with
  | Except.error e => Except.error e
  | Except.ok (m, k) => Except.ok (fmtDot1 m k)

/-- Total version of `f"{num / den:.1f}"`, used by the total model of the
pipeline; on the overflow inputs, where the program raises instead of
returning, its value (the empty string) is immaterial — the
exception-explicit model `fmtOneDecimalE` is the authority there. -/
def fmtOneDecimal (num den : Nat) : List Char :=
  match floatDiv num den with
  | Except.error _ => []
  | Except.ok (m, k) => fmtDot1 m k

/-- Body of `format_number` (lines 63-90 of the source), with the converted
value `num` and the matched digit string `numStr` passed separately. -/
def formatNumberVal (num : Nat) (numStr : List Char) : List Char :=
  if 1000000000 ≤ num then
    if num % 1000000000 == 0 then natToChars (num / 1000000000) ++ " billion".data
    else fmtOneDecimal num 1000000000 ++ " billion".data
  else if 1000000 ≤ num then
    if num % 1000000 == 0 then natToChars (num / 1000000) ++ " million".data
    else fmtOneDecimal num 1000000 ++ " million".data
  else if 100000 ≤ num then
    if num % 1000 == 0 && num / 1000 < 1000 then natToChars (num / 1000) ++ " thousand".data
    else if num % 100000 == 0 then natToChars (num / 100000) ++ " hundred thousand".data
    else fmtOneDecimal num 1000000 ++ " million".data
  else if 1000 ≤ num then
    if num % 1000 == 0 then natToChars (num / 1000) ++ " thousand".data
    else fmtOneDecimal num 1000 ++ " thousand".data
  else numStr

def formatNumber (numStr : List Char) : List Char :=
  formatNumberVal (natOfDigits numStr) numStr

/-- Match extraction for `re.sub(r'\b\d{4,}\b', format_number, text)`: the
matched digit group, characters consumed, last matched character. -/
def numMatch (prev : Option Char) (c : Char) (cs : List Char) :
    Option (List Char × Nat × Char) :=
  if c.isDigit && boundaryB prev (some c) then
    let t := cs.takeWhile Char.isDigit
    if 4 ≤ t.length + 1 && boundaryB (some (t.getLastD c)) ((cs.drop t.length).head?) then
      some (c :: t, t.length, t.getLastD c)
    else none
  else none

/-- Matcher for `re.sub(r'\b\d{4,}\b', format_number, text)`: the
replacement function applied to the matched group. -/
def tryNumber (prev : Option Char) (c : Char) (cs : List Char) :
    Option (List Char × Nat × Char) :=
  (numMatch prev c cs).map (fun x => (formatNumber x.1, x.2))

/-- Body of `format_decimal` (lines 96-120 of the source); `intStr` and
`decStr` are the two digit groups around the dot of the matched token. -/
def formatDecimal (intStr decStr : List Char) : List Char :=
  let integerPart := natOfDigits intStr
  if decStr.length == 1 then
    let digit := natOfDigits decStr
    if digit == 5 then
      if 0 < integerPart then natToChars integerPart ++ " and a half".data else "half".data
    else
      if 0 < integerPart then natToChars integerPart ++ " point ".data ++ natToChars digit
      else natToChars digit ++ " tenths".data
  else if decStr.length == 2 then
    let decimalNum := natOfDigits decStr
    if decimalNum == 0 then
      if 0 < integerPart then natToChars integerPart else "zero".data
    else if decimalNum < 10 then
      if 0 < integerPart then natToChars integerPart ++ " point zero ".data ++ natToChars decimalNum
      else natToChars decimalNum ++ " hundredths".data
    else
      if 0 < integerPart then natToChars integerPart ++ " point ".data ++ natToChars decimalNum
      else natToChars decimalNum ++ " hundredths".data
  else
    if 0 < integerPart then natToChars integerPart ++ " point ".data ++ decStr
    else "point ".data ++ decStr

/-- Match extraction for `re.sub(r'\b\d*\.\d+\b', format_decimal, text)`:
the two digit groups around the dot, characters consumed, last matched
character.  When the optional integer digits are empty the leading `\b`
sits before the dot, so it demands a word character on the left. -/
def decMatch (prev : Option Char) (c : Char) (cs : List Char) :
    Option ((List Char × List Char) × Nat × Char) :=
  if c.isDigit && boundaryB prev (some c) then
    let t1 := cs.takeWhile Char.isDigit
    match cs.drop t1.length with
    | '.' :: rest2 =>
      let d2 := rest2.takeWhile Char.isDigit
      if !d2.isEmpty && boundaryB (some (d2.getLastD '.')) ((rest2.drop d2.length).head?) then
        some ((c :: t1, d2), t1.length + 1 + d2.length, d2.getLastD '.')
      else none
    | _ => none
  else if c == '.' && boundaryB prev (some c) then
    let d2 := cs.takeWhile Char.isDigit
    if !d2.isEmpty && boundaryB (some (d2.getLastD '.')) ((cs.drop d2.length).head?) then
      some (([], d2), d2.length, d2.getLastD '.')
    else none
  else none

/-- Matcher for `re.sub(r'\b\d*\.\d+\b', format_decimal, text)`: the
replacement function applied to the matched groups. -/
def tryDecimal (prev : Option Char) (c : Char) (cs : List Char) :
    Option (List Char × Nat × Char) :=
  (decMatch prev c cs).map (fun x => (formatDecimal x.1.1 x.1.2, x.2))

def isHexLower (c : Char) : Bool := c.isDigit || ('a' ≤ c && c ≤ 'f')

def isHexAny (c : Char) : Bool := isHexLower c || ('A' ≤ c && c ≤ 'F')

def isLowerAlnum (c : Char) : Bool := c.isDigit || ('a' ≤ c && c ≤ 'z')

/-- Python `\s` over ASCII. -/
def isSpaceChar (c : Char) : Bool :=
  c == ' ' || c == '\t' || c == '\n' || c == '\r' || c == '\x0b' || c == '\x0c'

def isB64Char (c : Char) : Bool := c.isAlpha || c.isDigit || c == '+' || c == '/'

/-- Matcher for `re.sub(r'-[0-9a-f]{10}-[a-z0-9]{5}\b', ' with generated suffix', text)`. -/
def tryGenSuffix (_prev : Option Char) (c : Char) (cs : List Char) :
    Option (List Char × Nat × Char) :=
  if c == '-' then
    let h := cs.take 10
    if h.length == 10 && h.all isHexLower then
      match cs.drop 10 with
      | '-' :: rest =>
        let a := rest.take 5
        if a.length == 5 && a.all isLowerAlnum
            && boundaryB (some (a.getLastD '-')) ((rest.drop 5).head?) then
          some (" with generated suffix".data, 16, a.getLastD '-')
        else none
      | _ => none
    else none
  else none

/-- Matcher for `re.sub(r'\b0x[0-9a-f]{6,}\b', '-', text, flags=re.IGNORECASE)`. -/
def tryHex0x (prev : Option Char) (c : Char) (cs : List Char) :
    Option (List Char × Nat × Char) :=
  if c == '0' && boundaryB prev (some c) then
    match cs with
    | x :: rest =>
      if x == 'x' || x == 'X' then
        let run := rest.takeWhile isHexAny
        if 6 ≤ run.length && boundaryB (some (run.getLastD x)) ((rest.drop run.length).head?) then
          some ("-".data, 1 + run.length, run.getLastD x)
        else none
      else none
    | [] => none
  else none

/-- Matcher for a word-bounded run of at least `minLen` characters of the
class `hexP`, as in `re.sub(r'\b[0-9a-f]{8,}\b', ...)`.  Greedy matching
with the trailing `\b` reduces to: the maximal run from a boundary start
has length at least `minLen` and is followed by a non-word position (a
shortened run would end right before another class character, which is a
word character, so backtracking can never succeed). -/
def tryHexRun (minLen : Nat) (hexP : Char → Bool) (repl : List Char)
    (prev : Option Char) (c : Char) (cs : List Char) :
    Option (List Char × Nat × Char) :=
  if hexP c && boundaryB prev (some c) then
    let t := cs.takeWhile hexP
    if minLen ≤ t.length + 1 && boundaryB (some (t.getLastD c)) ((cs.drop t.length).head?) then
      some (repl, t.length, t.getLastD c)
    else none
  else none

def tryHex8 : Option Char → Char → List Char → Option (List Char × Nat × Char) :=
  tryHexRun 8 isHexAny "-".data

def tryHex12 : Option Char → Char → List Char → Option (List Char × Nat × Char) :=
  tryHexRun 12 isHexLower "long ID".data

/-- Matcher for `re.sub(r'\bsha256:[0-9a-f]{8,}\b', 'SHA hash', text, flags=re.IGNORECASE)`. -/
def tryShaHash (prev : Option Char) (c : Char) (cs : List Char) :
    Option (List Char × Nat × Char) :=
  if boundaryB prev (some c) && (c :: cs.take 6).map Char.toLower == "sha256:".data then
    let rest := cs.drop 6
    let run := rest.takeWhile isHexAny
    if 8 ≤ run.length && boundaryB (some (run.getLastD ':')) ((rest.drop run.length).head?) then
      some ("SHA hash".data, 6 + run.length, run.getLastD ':')
    else none
  else none

/-- Matcher for `re.sub(r'id: cri-o://\S+', 'container ID', text)`. -/
def tryCriO (_prev : Option Char) (c : Char) (cs : List Char) :
    Option (List Char × Nat × Char) :=
  if c :: cs.take 11 == "id: cri-o://".data then
    let rest := cs.drop 11
    let run := rest.takeWhile (fun ch => !isSpaceChar ch)
    if !run.isEmpty then
      some ("container ID".data, 11 + run.length, run.getLastD '/')
    else none
  else none

/-- Matcher for `re.sub(r'container ID\s+ID\b', 'container ID', text)`. -/
def tryContainerIdId (_prev : Option Char) (c : Char) (cs : List Char) :
    Option (List Char × Nat × Char) :=
  if c :: cs.take 11 == "container ID".data then
    let rest := cs.drop 11
    let ws := rest.takeWhile isSpaceChar
    if !ws.isEmpty then
      match rest.drop ws.length with
      | 'I' :: 'D' :: rest2 =>
        if boundaryB (some 'D') rest2.head? then
          some ("container ID".data, 11 + ws.length + 2, 'D')
        else none
      | _ => none
    else none
  else none

/-- Matcher for `re.sub(r'@sha256:[0-9a-f]+', ' at SHA digest', text)`. -/
def tryAtSha (_prev : Option Char) (c : Char) (cs : List Char) :
    Option (List Char × Nat × Char) :=
  if c == '@' && cs.take 7 == "sha256:".data then
    let rest := cs.drop 7
    let run := rest.takeWhile isHexLower
    if !run.isEmpty then
      some (" at SHA digest".data, 7 + run.length, run.getLastD ':')
    else none
  else none

/-- Backtracking search for `[A-Za-z0-9+/]{20,}` followed by `\b` when the
maximal run fails: the argument is the reversed run together with its
length, and the result is the largest admissible match length below it.
Shortening the run places the trailing `\b` between two class characters,
which succeeds exactly when their word status differs (an alphanumeric
character against `+` or `/`). -/
def shrinkB64 : List Char → Nat → Option Nat
  | [], _ => none
  | _ :: [], _ => none
  | a :: b :: rest, len =>
    if 20 ≤ len - 1 && (isWordChar b != isWordChar a) then some (len - 1)
    else shrinkB64 (b :: rest) (len - 1)

/-- Matcher for `re.sub(r'\b[A-Za-z0-9+/]{20,}={0,2}\b', 'encoded value', text)`.
Greedy order: the maximal class run with two, one, then zero `=` consumed,
then shorter runs (where no `=` can follow). -/
def tryBase64 (prev : Option Char) (c : Char) (cs : List Char) :
    Option (List Char × Nat × Char) :=
  if isB64Char c && boundaryB prev (some c) then
    let t := cs.takeWhile isB64Char
    let run := c :: t
    if 20 ≤ run.length then
      let rest := cs.drop t.length
      let lastRun := t.getLastD c
      let e2 : Option (Nat × Char) :=
        match rest with
        | '=' :: '=' :: r2 => if boundaryB (some '=') r2.head? then some (2, '=') else none
        | _ => none
      let e1 : Option (Nat × Char) :=
        match rest with
        | '=' :: r1 => if boundaryB (some '=') r1.head? then some (1, '=') else none
        | _ => none
      let e0 : Option (Nat × Char) :=
        if boundaryB (some lastRun) rest.head? then some (0, lastRun) else none
      match e2 <|> e1 <|> e0 with
      | some (e, lc) => some ("encoded value".data, t.length + e, lc)
      | none =>
        match shrinkB64 run.reverse run.length with
        | some l => some ("encoded value".data, l - 1, run.getD (l - 1) c)
        | none => none
    else none
  else none

/-- The pass `re.sub(r'\*+', '', text)`: every asterisk is removed. -/
def stripAsterisks (t : List Char) : List Char := t.filter (fun c => c != '*')

/-- Python `text.replace('°C', ' Celsius ')`: left-to-right, non-overlapping. -/
def replaceDegC : List Char → List Char
  | [] => []
  | '°' :: 'C' :: rest => " Celsius ".data ++ replaceDegC rest
  | c :: rest => c :: replaceDegC rest

/-- Python `text.replace(a, ' ')` for a single character `a`. -/
def charSub (a : Char) (t : List Char) : List Char :=
  t.map (fun c => if c == a then ' ' else c)

/-- The passes of lines 125-156 of the source (identifier redaction,
markdown stripping, character substitutions), in source order. -/
def tailPasses (t : List Char) : List Char :=
  let t := subScan tryGenSuffix t
  let t := subScan tryHex0x t
  let t := subScan tryHex8 t
  let t := subScan tryShaHash t
  let t := subScan tryCriO t
  let t := subScan tryHex12 t
  let t := subScan tryContainerIdId t
  let t := subScan tryAtSha t
  let t := subScan tryBase64 t
  let t := stripAsterisks t
  let t := replaceDegC t
  let t := charSub '`' t
  let t := charSub '/' t
  let t := charSub '_' t
  t

/-- The whole body of `preprocess_abbreviations` (lines 20-158 of the
source), pass for pass and in source order, over `List Char`. -/
def preprocessL (t : List Char) : List Char :=
  tailPasses (subScan tryDecimal (subScan tryNumber (abbrevPass t)))

def preprocess_abbreviations (s : String) : String :=
  String.mk (preprocessL s.data)

/-- Substring test: does `pat` occur contiguously in the subject? -/
def containsSeq (pat : List Char) : List Char → Bool
  | [] => pat.isEmpty
  | c :: cs => pat.isPrefixOf (c :: cs) || containsSeq pat cs

/-- Spec-side checker for claim C1: does the text contain a standalone
(word-bounded) run of 4 or more digits? -/
def hasDigitRunAux : Option Char → List Char → Bool
  | _, [] => false
  | prev, c :: cs =>
    if c.isDigit && !(isWordOpt prev)
        && 4 ≤ (c :: cs.takeWhile Char.isDigit).length
        && !(isWordOpt ((cs.drop (cs.takeWhile Char.isDigit).length).head?)) then true
    else hasDigitRunAux (some c) cs

def hasLongDigitToken (t : List Char) : Bool := hasDigitRunAux none t

/-- Spec-side magnitude phrase, transcribed from the wording of claim C3
(spec section 4.1 stage 2): branch order is by magnitude, divisibility is
stated with `∣`, and the one-decimal renderings use the shared
`fmtOneDecimal`. -/
def specMagnitude (n : Nat) (tok : List Char) : List Char :=
  if 10 ^ 9 ≤ n then
    if 10 ^ 9 ∣ n then natToChars (n / 10 ^ 9) ++ " billion".data
    else fmtOneDecimal n (10 ^ 9) ++ " billion".data
  else if 10 ^ 6 ≤ n then
    if 10 ^ 6 ∣ n then natToChars (n / 10 ^ 6) ++ " million".data
    else fmtOneDecimal n (10 ^ 6) ++ " million".data
  else if 10 ^ 5 ≤ n then
    if 1000 ∣ n ∧ n / 1000 < 1000 then natToChars (n / 1000) ++ " thousand".data
    else if 10 ^ 5 ∣ n then natToChars (n / 10 ^ 5) ++ " hundred thousand".data
    else fmtOneDecimal n (10 ^ 6) ++ " million".data
  else if 1000 ≤ n then
    if 1000 ∣ n then natToChars (n / 1000) ++ " thousand".data
    else fmtOneDecimal n 1000 ++ " thousand".data
  else tok

/-- Spec-side decimal phrase, transcribed from the wording of claim C4
(spec section 4.1 stage 3): dispatch on the decimal-part length, with the
integer part `n` already converted to its value. -/
def specDecimalWords (n : Nat) (dec : List Char) : List Char :=
  if dec.length = 1 then
    let d := natOfDigits dec
    if d = 5 then
      if 0 < n then natToChars n ++ " and a half".data else "half".data
    else
      if 0 < n then natToChars n ++ " point ".data ++ natToChars d
      else natToChars d ++ " tenths".data
  else if dec.length = 2 then
    let d := natOfDigits dec
    if d = 0 then
      if 0 < n then natToChars n else "zero".data
    else if d < 10 then
      if 0 < n then natToChars n ++ " point zero ".data ++ natToChars d
      else natToChars d ++ " hundredths".data
    else
      if 0 < n then natToChars n ++ " point ".data ++ natToChars d
      else natToChars d ++ " hundredths".data
  else
    if 0 < n then natToChars n ++ " point ".data ++ dec
    else "point ".data ++ dec

/- Exception-explicit variant of the pipeline for claim C7.  Python `int`
raises `ValueError` on an empty or non-digit string; `intOfStrE` models
that.  The two passes whose replacement functions call `int` (number and
decimal formatting) are rebuilt on an `Except`-valued scanner; every other
pass of the source contains no fallible operation. -/
def intOfStrE (ds : List Char) : Except String Nat :=
  if !ds.isEmpty && ds.all Char.isDigit then Except.ok (natOfDigits ds)
  else Except.error "invalid literal for int()"

/-- Exception-explicit `format_number` body: the branch structure of
`formatNumberVal` with the float divisions fallible (they raise
`OverflowError` for quotients beyond double range). -/
def formatNumberValE (num : Nat) (numStr : List Char) : Except String (List Char) :=
  if 1000000000 ≤ num then
    if num % 1000000000 == 0 then Except.ok (natToChars (num / 1000000000) ++ " billion".data)
    else
      match fmtOneDecimalE num 1000000000 with
      | Except.error e => Except.error e
      | Except.ok d => Except.ok (d ++ " billion".data)
  else if 1000000 ≤ num then
    if num % 1000000 == 0 then Except.ok (natToChars (num / 1000000) ++ " million".data)
    else
      match fmtOneDecimalE num 1000000 with
      | Except.error e => Except.error e
      | Except.ok d => Except.ok (d ++ " million".data)
  else if 100000 ≤ num then
    if num % 1000 == 0 && num / 1000 < 1000 then
      Except.ok (natToChars (num / 1000) ++ " thousand".data)
    else if num % 100000 == 0 then
      Except.ok (natToChars (num / 100000) ++ " hundred thousand".data)
    else
      match fmtOneDecimalE num 1000000 with
      | Except.error e => Except.error e
      | Except.ok d => Except.ok (d ++ " million".data)
  else if 1000 ≤ num then
    if num % 1000 == 0 then Except.ok (natToChars (num / 1000) ++ " thousand".data)
    else
      match fmtOneDecimalE num 1000 with
      | Except.error e => Except.error e
      | Except.ok d => Except.ok (d ++ " thousand".data)
  else Except.ok numStr

def formatNumberE (numStr : List Char) : Except String (List Char) :=
  match intOfStrE numStr with
  | Except.error e => Except.error e
  | Except.ok num => formatNumberValE num numStr

/-- Exception-explicit `format_decimal`: `int(parts[0])` is guarded by the
source (`if parts[0] else 0`), and `int(decimal_part)` runs only in the
one- and two-digit branches. -/
def formatDecimalE (intStr decStr : List Char) : Except String (List Char) :=
  match (if intStr.isEmpty then Except.ok 0 else intOfStrE intStr) with
  | Except.error e => Except.error e
  | Except.ok _ =>
    if decStr.length == 1 || decStr.length == 2 then
      match intOfStrE decStr with
      | Except.error e => Except.error e
      | Except.ok _ => Except.ok (formatDecimal intStr decStr)
    else Except.ok (formatDecimal intStr decStr)

def tryNumberE (prev : Option Char) (c : Char) (cs : List Char) :
    Option (Except String (List Char) × Nat × Char) :=
  (numMatch prev c cs).map (fun x => (formatNumberE x.1, x.2))

def tryDecimalE (prev : Option Char) (c : Char) (cs : List Char) :
    Option (Except String (List Char) × Nat × Char) :=
  (decMatch prev c cs).map (fun x => (formatDecimalE x.1.1 x.1.2, x.2))

def subScanFE (f : Option Char → Char → List Char → Option (Except String (List Char) × Nat × Char)) :
    Nat → Option Char → List Char → Except String (List Char)
  | 0, _, rest => Except.ok rest
  | _ + 1, _, [] => Except.ok []
  | fuel + 1, prev, c :: cs =>
    match f prev c cs with
    | some (r, j, lastC) =>
      match r with
      | Except.error e => Except.error e
      | Except.ok rl =>
        match subScanFE f fuel (some lastC) (cs.drop j) with
        | Except.error e => Except.error e
        | Except.ok rest2 => Except.ok (rl ++ rest2)
    | none =>
      match subScanFE f fuel (some c) cs with
      | Except.error e => Except.error e
      | Except.ok rest2 => Except.ok (c :: rest2)

def subScanE (f : Option Char → Char → List Char → Option (Except String (List Char) × Nat × Char))
    (t : List Char) : Except String (List Char) :=
  subScanFE f t.length none t

def preprocessLE (t : List Char) : Except String (List Char) :=
  match subScanE tryNumberE (abbrevPass t) with
  | Except.error e => Except.error e
  | Except.ok t1 =>
    match subScanE tryDecimalE t1 with
    | Except.error e => Except.error e
    | Except.ok t2 => Except.ok (tailPasses t2)

def preprocess_abbreviationsE (s : String) : Except String String :=
  match preprocessLE s.data with
  | Except.error e => Except.error e
  | Except.ok t => Except.ok (String.mk t)

/-- Pointwise no-match certificate for a scanner: `P prev c` holds at every
position of the text, with the previous-character argument chained along. -/
def chainP (P : Option Char → Char → Bool) : Option Char → List Char → Bool
  | _, [] => true
  | prev, c :: cs => P prev c && chainP P (some c) cs

/-- Lowercase hex letters, a character family used to quantify claim C2
over arbitrary hex digest content. -/
def isHexLetter (c : Char) : Bool := 'a' ≤ c && c ≤ 'f'

/-- The characters that can occur in `sha256:<hex letters>` tokens. -/
def isShaChar (c : Char) : Bool :=
  ('a' ≤ c && c ≤ 'f') || c == 's' || c == 'h' || c == '2' || c == '5' || c == '6' || c == ':'

/- Helper lemmas about the scanner and list combinators. -/

theorem subScanF_nil (f : Option Char → Char → List Char → Option (List Char × Nat × Char))
    (n : Nat) (prev : Option Char) : subScanF f n prev [] = [] := by
  cases n <;> rfl

theorem subScanF_succ_match {f : Option Char → Char → List Char → Option (List Char × Nat × Char)}
    {prev : Option Char} {c : Char} {cs r : List Char} {j : Nat} {lc : Char}
    (h : f prev c cs = some (r, j, lc)) (fuel : Nat) :
    subScanF f (fuel + 1) prev (c :: cs) = r ++ subScanF f fuel (some lc) (cs.drop j) := by
  simp [subScanF, h]

theorem subScanF_succ_nomatch {f : Option Char → Char → List Char → Option (List Char × Nat × Char)}
    {prev : Option Char} {c : Char} {cs : List Char}
    (h : f prev c cs = none) (fuel : Nat) :
    subScanF f (fuel + 1) prev (c :: cs) = c :: subScanF f fuel (some c) cs := by
  simp [subScanF, h]

theorem takeWhile_append_of_all (p : Char → Bool) :
    ∀ (t l : List Char), t.all p = true →
      (t ++ l).takeWhile p = t ++ l.takeWhile p := by
  intro t
  induction t with
  | nil => intro l _; simp
  | cons c cs ih =>
    intro l h
    simp only [List.all_cons, Bool.and_eq_true] at h
    simp [List.takeWhile_cons, h.1, ih l h.2]

theorem takeWhile_eq_self_of_all (p : Char → Bool) (t : List Char) (h : t.all p = true) :
    t.takeWhile p = t := by
  have h2 := takeWhile_append_of_all p t [] h
  simpa using h2

theorem drop_append_add (t l : List Char) (n : Nat) :
    (t ++ l).drop (t.length + n) = l.drop n := by
  rw [← List.drop_drop n t.length, List.drop_left]

theorem getLastD_mem (l : List Char) (a : Char) : l.getLastD a ∈ a :: l := by
  induction l generalizing a with
  | nil => simp
  | cons b t ih =>
    rw [List.getLastD_cons]
    exact List.mem_cons_of_mem a (ih b)

theorem subScanF_id_of_pointwise
    (f : Option Char → Char → List Char → Option (List Char × Nat × Char))
    (P : Option Char → Char → Bool)
    (hP : ∀ prev c cs, P prev c = true → f prev c cs = none) :
    ∀ (t : List Char) (fuel : Nat) (prev : Option Char),
      chainP P prev t = true → subScanF f fuel prev t = t := by
  intro t
  induction t with
  | nil => intro fuel prev _; exact subScanF_nil f fuel prev
  | cons c cs ih =>
    intro fuel prev hc
    simp only [chainP, Bool.and_eq_true] at hc
    cases fuel with
    | zero => rfl
    | succ n =>
      rw [subScanF_succ_nomatch (hP prev c cs hc.1), ih n (some c) hc.2]

theorem chainP_of_all (P : Option Char → Char → Bool) (cond : Char → Bool)
    (h : ∀ prev c, cond c = true → P prev c = true) :
    ∀ (t : List Char) (prev : Option Char), t.all cond = true → chainP P prev t = true := by
  intro t
  induction t with
  | nil => intro prev _; rfl
  | cons c cs ih =>
    intro prev hall
    simp only [List.all_cons, Bool.and_eq_true] at hall
    simp [chainP, h prev c hall.1, ih (some c) hall.2]

theorem subScanF_prepend
    (f : Option Char → Char → List Char → Option (List Char × Nat × Char))
    (P : Option Char → Char → Bool)
    (hP : ∀ prev c cs, P prev c = true → f prev c cs = none) :
    ∀ (pre : List Char) (prev : Option Char) (suf : List Char) (fuel : Nat),
      chainP P prev pre = true →
      subScanF f (pre.length + fuel) prev (pre ++ suf) =
        pre ++ subScanF f fuel (pre.foldl (fun _ c => some c) prev) suf := by
  intro pre
  induction pre with
  | nil => intro prev suf fuel _; simp
  | cons c pr ih =>
    intro prev suf fuel hc
    simp only [chainP, Bool.and_eq_true] at hc
    have hlen : (c :: pr).length + fuel = (pr.length + fuel) + 1 := by
      simp only [List.length_cons]; omega
    rw [hlen, List.cons_append, subScanF_succ_nomatch (hP prev c (pr ++ suf) hc.1),
      ih (some c) suf fuel hc.2]
    rfl

theorem isWordChar_of_digit {c : Char} (h : c.isDigit = true) : isWordChar c = true := by
  simp [isWordChar, h]

theorem isLower_of_range {c : Char} (h1 : 'a' ≤ c) (h2 : c ≤ 'f') : c.isLower = true := by
  have h1n : (97 : Nat) ≤ c.toNat := h1
  have h2n : c.toNat ≤ (102 : Nat) := h2
  simp only [Char.isLower, Bool.and_eq_true, decide_eq_true_eq]
  exact ⟨h1, show c.toNat ≤ (122 : Nat) by omega⟩

theorem isUpper_of_range {c : Char} (h1 : 'A' ≤ c) (h2 : c ≤ 'F') : c.isUpper = true := by
  have h1n : (65 : Nat) ≤ c.toNat := h1
  have h2n : c.toNat ≤ (70 : Nat) := h2
  simp only [Char.isUpper, Bool.and_eq_true, decide_eq_true_eq]
  exact ⟨h1, show c.toNat ≤ (90 : Nat) by omega⟩

theorem isWordChar_of_isHexAny {c : Char} (h : isHexAny c = true) : isWordChar c = true := by
  simp only [isHexAny, isHexLower, Bool.or_eq_true, Bool.and_eq_true, decide_eq_true_eq] at h
  rcases h with (h | h) | h
  · exact isWordChar_of_digit h
  · have := isLower_of_range h.1 h.2
    simp [isWordChar, Char.isAlpha, this]
  · have := isUpper_of_range h.1 h.2
    simp [isWordChar, Char.isAlpha, this]

theorem isHexLetter_not_digit {c : Char} (h : isHexLetter c = true) : c.isDigit = false := by
  simp only [isHexLetter, Bool.and_eq_true, decide_eq_true_eq] at h
  have h1n : (97 : Nat) ≤ c.toNat := h.1
  have hd : decide (c.val ≤ (57 : UInt32)) = false := by
    simp only [decide_eq_false_iff_not]
    intro hle
    exact absurd (show c.toNat ≤ (57 : Nat) from hle) (by omega)
  simp [Char.isDigit, hd]

theorem isHexLetter_isHexAny {c : Char} (h : isHexLetter c = true) : isHexAny c = true := by
  simp only [isHexLetter] at h
  simp [isHexAny, isHexLower, h]

theorem isHexLetter_isWordChar {c : Char} (h : isHexLetter c = true) : isWordChar c = true :=
  isWordChar_of_isHexAny (isHexLetter_isHexAny h)

theorem isHexLetter_isShaChar {c : Char} (h : isHexLetter c = true) : isShaChar c = true := by
  simp only [isHexLetter] at h
  simp [isShaChar, h]

theorem isHexLetter_ne {c : Char} (h : isHexLetter c = true) {d : Char}
    (hd : d.toNat < 97) : c ≠ d := by
  simp only [isHexLetter, Bool.and_eq_true, decide_eq_true_eq] at h
  have h1n : (97 : Nat) ≤ c.toNat := h.1
  intro he
  subst he
  omega

/-- C8: the Normalizer is deterministic — the embedding of
`preprocess_abbreviations` is a pure function of its input string (the
source reads no external state), so two evaluations on the same input are
equal. -/
theorem claimC8_deterministic (x : String) :
    preprocess_abbreviations x = preprocess_abbreviations x := rfl

/-- C2, counterexample: on the word-bounded token `sha256:abcdef12` (eight
hex digits after the colon) the full normalizer does NOT produce the phrase
"SHA hash"; it produces `sha256:-`, because the bare-hex rule of source
line 131 runs first and consumes the digits. -/
theorem claimC2_counterexample :
    preprocess_abbreviations "sha256:abcdef12" = "sha256:-" ∧
    containsSeq "SHA hash".data (preprocessL "sha256:abcdef12".data) = false := by
  constructor
  · decide
  · decide

theorem tryLit_none_of_missing {lit repl : List Char} {prev : Option Char} {c : Char}
    {cs : List Char}
    (hch : lit.any (fun ch => !isShaChar ch) = true)
    (ht : (c :: cs).all isShaChar = true) :
    tryLit lit repl prev c cs = none := by
  cases lit with
  | nil => rfl
  | cons l0 lt =>
    by_cases hc : (c == l0) = true
    · by_cases hp : lt.isPrefixOf cs = true
      · exfalso
        rw [List.any_eq_true] at hch
        obtain ⟨ch, hmem, hnot⟩ := hch
        rw [List.all_eq_true] at ht
        have hcl : c = l0 := eq_of_beq hc
        have hsub : ∀ x ∈ l0 :: lt, x ∈ c :: cs := by
          intro x hx
          rcases List.mem_cons.mp hx with h | h
          · rw [h, ← hcl]; exact List.mem_cons_self c cs
          · exact List.mem_cons_of_mem c ((List.isPrefixOf_iff_prefix.mp hp).subset h)
        have hx := ht ch (hsub ch hmem)
        rw [hx] at hnot
        simp at hnot
      · have hp2 : lt.isPrefixOf cs = false := by
          rw [Bool.eq_false_iff]
          exact hp
        simp [tryLit, hp2]
    · have hc2 : (c == l0) = false := by simpa using hc
      simp [tryLit, hc2]

theorem subScanF_id_missing (lit repl : List Char)
    (hch : lit.any (fun ch => !isShaChar ch) = true) :
    ∀ (t : List Char) (fuel : Nat) (prev : Option Char),
      t.all isShaChar = true → subScanF (tryLit lit repl) fuel prev t = t := by
  intro t
  induction t with
  | nil => intro fuel prev _; exact subScanF_nil _ _ _
  | cons c cs ih =>
    intro fuel prev hall
    cases fuel with
    | zero => rfl
    | succ n =>
      rw [subScanF_succ_nomatch (tryLit_none_of_missing hch hall)]
      rw [List.all_cons, Bool.and_eq_true] at hall
      rw [ih n (some c) hall.2]

theorem abbrevPass_id_sha (t : List Char) (ht : t.all isShaChar = true) :
    abbrevPass t = t := by
  have hall : abbrevTable.all (fun p => p.1.data.any (fun ch => !isShaChar ch)) = true := by
    decide
  rw [abbrevPass]
  have key : ∀ rules : List (String × String),
      rules.all (fun p => p.1.data.any (fun ch => !isShaChar ch)) = true →
      List.foldl (fun acc p => subScan (tryLit p.1.data p.2.data) acc) t rules = t := by
    intro rules
    induction rules with
    | nil => intro _; rfl
    | cons r rs ih =>
      intro hr
      rw [List.all_cons, Bool.and_eq_true] at hr
      rw [List.foldl_cons]
      have hstep : subScan (tryLit r.1.data r.2.data) t = t := by
        rw [subScan]
        exact subScanF_id_missing _ _ hr.1 t t.length none ht
      rw [hstep]
      exact ih hr.2
  exact key abbrevTable hall

theorem chainP_append (P : Option Char → Char → Bool) :
    ∀ (pre suf : List Char) (prev : Option Char),
      chainP P prev (pre ++ suf) =
        (chainP P prev pre && chainP P (pre.foldl (fun _ c => some c) prev) suf) := by
  intro pre
  induction pre with
  | nil => intro suf prev; simp [chainP]
  | cons c pr ih => intro suf prev; simp [chainP, ih, Bool.and_assoc]

theorem tryNumber_none_pt (prev : Option Char) (c : Char) (cs : List Char)
    (h : (!c.isDigit || isWordOpt prev) = true) : tryNumber prev c cs = none := by
  rw [Bool.or_eq_true] at h
  rcases h with h | h
  · have hc : c.isDigit = false := by simpa using h
    simp [tryNumber, numMatch, hc]
  · by_cases hc : c.isDigit = true
    · have hb : boundaryB prev (some c) = false := by
        have h2 : isWordOpt (some c) = true := by
          simp [isWordOpt, isWordChar_of_digit hc]
        simp only [boundaryB]
        rw [h, h2]
        decide
      simp [tryNumber, numMatch, hb]
    · have hc2 : c.isDigit = false := by simpa using hc
      simp [tryNumber, numMatch, hc2]

theorem tryDecimal_none_pt (prev : Option Char) (c : Char) (cs : List Char)
    (h : (c.isDigit && isWordOpt prev || (!c.isDigit && !(c == '.'))) = true) :
    tryDecimal prev c cs = none := by
  rw [Bool.or_eq_true] at h
  rcases h with h | h
  · rw [Bool.and_eq_true] at h
    have hb : boundaryB prev (some c) = false := by
      have h2 : isWordOpt (some c) = true := by
        simp [isWordOpt, isWordChar_of_digit h.1]
      simp only [boundaryB]
      rw [h.2, h2]
      decide
    have hdot : (c == '.') = false := by
      have hne : c ≠ '.' := by
        intro he
        rw [he] at h
        exact absurd h.1 (by decide)
      simpa using hne
    simp [tryDecimal, decMatch, hb, hdot]
  · rw [Bool.and_eq_true] at h
    have hc : c.isDigit = false := by simpa using h.1
    have hdot : (c == '.') = false := by simpa using h.2
    simp [tryDecimal, decMatch, hc, hdot]

theorem tryGenSuffix_none_pt (prev : Option Char) (c : Char) (cs : List Char)
    (h : (c == '-') = false) : tryGenSuffix prev c cs = none := by
  simp [tryGenSuffix, h]

theorem tryHex0x_none_pt (prev : Option Char) (c : Char) (cs : List Char)
    (h : (c == '0') = false) : tryHex0x prev c cs = none := by
  simp [tryHex0x, h]

theorem tryHexRun_none_pt (minLen : Nat) (hexP : Char → Bool) (repl : List Char)
    (prev : Option Char) (c : Char) (cs : List Char)
    (hword : ∀ x, hexP x = true → isWordChar x = true)
    (h : (!hexP c || isWordOpt prev) = true) :
    tryHexRun minLen hexP repl prev c cs = none := by
  rw [Bool.or_eq_true] at h
  rcases h with h | h
  · have hc : hexP c = false := by simpa using h
    simp [tryHexRun, hc]
  · by_cases hc : hexP c = true
    · have hb : boundaryB prev (some c) = false := by
        have h2 : isWordOpt (some c) = true := by simp [isWordOpt, hword c hc]
        simp only [boundaryB]
        rw [h, h2]
        decide
      simp [tryHexRun, hb]
    · have hc2 : hexP c = false := by simpa using hc
      simp [tryHexRun, hc2]

theorem scan_id_sha (f : Option Char → Char → List Char → Option (List Char × Nat × Char))
    (P : Option Char → Char → Bool)
    (hP : ∀ prev c cs, P prev c = true → f prev c cs = none)
    (hpre : chainP P none "sha256:".data = true)
    (htail : ∀ (prev : Option Char) (c : Char), isHexLetter c = true → P prev c = true)
    (hs : List Char) (hl : hs.all isHexLetter = true) :
    subScan f ("sha256:".data ++ hs) = "sha256:".data ++ hs := by
  apply subScanF_id_of_pointwise f P hP
  rw [chainP_append, Bool.and_eq_true]
  exact ⟨hpre, chainP_of_all P isHexLetter htail hs _ hl⟩

theorem hex8_sha (hs : List Char) (h8 : 8 ≤ hs.length) (hl : hs.all isHexLetter = true) :
    subScan tryHex8 ("sha256:".data ++ hs) = "sha256:-".data := by
  have hP : ∀ (prev : Option Char) (c : Char) (cs : List Char),
      ((fun prev c => !isHexAny c || isWordOpt prev) prev c) = true →
      tryHex8 prev c cs = none := by
    intro prev c cs h
    exact tryHexRun_none_pt 8 isHexAny "-".data prev c cs
      (fun x hx => isWordChar_of_isHexAny hx) h
  have hpre : chainP (fun prev c => !isHexAny c || isWordOpt prev) none "sha256:".data = true := by
    decide
  rw [subScan, List.length_append]
  rw [subScanF_prepend tryHex8 _ hP "sha256:".data none hs hs.length hpre]
  have hfold : "sha256:".data.foldl (fun _ c => some c) none = some ':' := rfl
  rw [hfold]
  cases hs with
  | nil => simp at h8
  | cons c0 t =>
    rw [List.all_cons, Bool.and_eq_true] at hl
    have htA : t.all isHexAny = true := by
      rw [List.all_eq_true] at hl ⊢
      intro x hx
      exact isHexLetter_isHexAny (hl.2 x hx)
    have hm : tryHex8 (some ':') c0 t = some ("-".data, t.length, t.getLastD c0) := by
      have hc : isHexAny c0 = true := isHexLetter_isHexAny hl.1
      have htk : t.takeWhile isHexAny = t := takeWhile_eq_self_of_all _ t htA
      have hdrop : t.drop t.length = [] := List.drop_length t
      have hb : boundaryB (some ':') (some c0) = true := by
        have h2 : isWordChar c0 = true := isHexLetter_isWordChar hl.1
        have h3 : isWordChar ':' = false := by decide
        simp [boundaryB, isWordOpt, h2, h3]
      have hlw : isWordChar (t.getLast?.getD c0) = true := by
        rw [← List.getLastD_eq_getLast?]
        rcases List.mem_cons.mp (getLastD_mem t c0) with h | h
        · rw [h]; exact isHexLetter_isWordChar hl.1
        · exact isHexLetter_isWordChar (List.all_eq_true.mp hl.2 _ h)
      have hbA : boundaryB (some (t.getLast?.getD c0)) (none : Option Char) = true := by
        simp [boundaryB, isWordOpt, hlw]
      have h8t : 8 ≤ t.length + 1 := by simpa using h8
      show tryHexRun 8 isHexAny "-".data (some ':') c0 t = _
      simp only [tryHexRun, htk, hdrop, hb, hc]
      simp [h8t, hbA]
    rw [List.length_cons, subScanF_succ_match hm, List.drop_length, subScanF_nil,
      List.append_nil]
    decide

/-- C2, amended: the "SHA hash" replacement never materializes — for every
word-bounded `sha256:` token whose 8+ hex digits are hex letters, the
bare-hex rule of line 131 replaces the digits first and the whole
normalizer yields `sha256:-` (proved for all such tokens); an all-digit
token is instead consumed by the earlier number pass (e.g.
`sha256:12345678` → `sha256:12 point 3 million`); the line-134 rule in
isolation does map such a token to "SHA hash", but it never fires in the
pipeline. -/
theorem claimC2_amended :
    (∀ hs : List Char, 8 ≤ hs.length → hs.all isHexLetter = true →
      preprocess_abbreviations (String.mk ("sha256:".data ++ hs)) = "sha256:-") ∧
    preprocess_abbreviations "sha256:12345678" = "sha256:12 point 3 million" ∧
    subScan tryShaHash "sha256:abcdef12".data = "SHA hash".data ∧
    preprocess_abbreviations "sha256:abcdef12" = "sha256:-" := by
  refine ⟨?_, by decide, by decide, by decide⟩
  intro hs h8 hl
  show String.mk (preprocessL ("sha256:".data ++ hs)) = "sha256:-"
  have hsha : ("sha256:".data ++ hs).all isShaChar = true := by
    rw [List.all_append, Bool.and_eq_true]
    refine ⟨by decide, ?_⟩
    rw [List.all_eq_true] at hl ⊢
    intro x hx
    exact isHexLetter_isShaChar (hl x hx)
  have habb : abbrevPass ("sha256:".data ++ hs) = "sha256:".data ++ hs :=
    abbrevPass_id_sha _ hsha
  have hnum : subScan tryNumber ("sha256:".data ++ hs) = "sha256:".data ++ hs := by
    refine scan_id_sha tryNumber (fun prev c => !c.isDigit || isWordOpt prev)
      tryNumber_none_pt (by decide) ?_ hs hl
    intro prev c hc
    simp [isHexLetter_not_digit hc]
  have hdec : subScan tryDecimal ("sha256:".data ++ hs) = "sha256:".data ++ hs := by
    refine scan_id_sha tryDecimal
      (fun prev c => c.isDigit && isWordOpt prev || (!c.isDigit && !(c == '.')))
      tryDecimal_none_pt (by decide) ?_ hs hl
    intro prev c hc
    have h1 : c.isDigit = false := isHexLetter_not_digit hc
    have h2 : (c == '.') = false := by
      simpa using isHexLetter_ne hc (show ('.' : Char).toNat < 97 by decide)
    simp [h1, h2]
  have hgen : subScan tryGenSuffix ("sha256:".data ++ hs) = "sha256:".data ++ hs := by
    refine scan_id_sha tryGenSuffix (fun _ c => !(c == '-'))
      (fun prev c cs h => tryGenSuffix_none_pt prev c cs (by simpa using h))
      (by decide) ?_ hs hl
    intro prev c hc
    simpa using isHexLetter_ne hc (show ('-' : Char).toNat < 97 by decide)
  have h0x : subScan tryHex0x ("sha256:".data ++ hs) = "sha256:".data ++ hs := by
    refine scan_id_sha tryHex0x (fun _ c => !(c == '0'))
      (fun prev c cs h => tryHex0x_none_pt prev c cs (by simpa using h))
      (by decide) ?_ hs hl
    intro prev c hc
    simpa using isHexLetter_ne hc (show ('0' : Char).toNat < 97 by decide)
  have h8s : subScan tryHex8 ("sha256:".data ++ hs) = "sha256:-".data := hex8_sha hs h8 hl
  simp only [preprocessL, tailPasses]
  rw [habb, hnum, hdec, hgen, h0x, h8s]
  decide

/-- C2, witness: the universal part of the amended theorem applied to the
token `sha256:abcdefab`. -/
theorem claimC2_witness :
    preprocess_abbreviations (String.mk ("sha256:".data ++ "abcdefab".data)) = "sha256:-" :=
  claimC2_amended.1 "abcdefab".data (by decide) (by decide)

/-- C10, counterexample: the decimal `.5` in `a.5` has no leading digit,
yet the decimal pass verbalizes it (the dot is preceded by the word
character `a`, which satisfies the leading `\b`), so "only decimals with at
least one leading digit are verbalized" fails. -/
theorem claimC10_counterexample :
    preprocess_abbreviations "a.5" = "ahalf" := by
  decide

/-- C10, amended: a decimal token with an empty integer part is left alone
exactly when the character before the dot is not a word character — the
matcher refuses the dot after a non-word position (so `.5` at the start of
the text or after a space is unchanged) — but after a word character such
as `a` the token IS verbalized. -/
theorem claimC10_amended :
    (∀ (prev : Option Char) (cs : List Char), isWordOpt prev = false →
      tryDecimal prev '.' cs = none) ∧
    preprocess_abbreviations ".5" = ".5" ∧
    preprocess_abbreviations "a.5" = "ahalf" := by
  refine ⟨?_, by decide, by decide⟩
  intro prev cs h
  have h1 : ('.' : Char).isDigit = false := by decide
  have h2 : isWordOpt (some '.') = false := by decide
  have h3 : boundaryB prev (some '.') = false := by simp [boundaryB, h, h2]
  simp [tryDecimal, decMatch, h1, h3]

/-- C10, witness for the amended theorem at `prev = some ' '`, `cs = "5"`. -/
theorem claimC10_witness :
    isWordOpt (some ' ') = false ∧ tryDecimal (some ' ') '.' ['5'] = none :=
  ⟨by decide, claimC10_amended.1 (some ' ') ['5'] (by decide)⟩

/-- C1, counterexample: the output of the normalizer on `12**34` is `1234`
— the markdown-stripping pass runs after number formatting and fuses the
two short digit runs into a standalone run of four digits, so the output is
not free of the section 4.1 patterns. -/
theorem claimC1_counterexample :
    preprocess_abbreviations "12**34" = "1234" ∧
    hasLongDigitToken (preprocessL "12**34".data) = true := by
  refine ⟨by decide, by decide⟩

theorem stripAsterisks_no_star (l : List Char) :
    (stripAsterisks l).all (fun c => c != '*') = true := by
  simp only [stripAsterisks, List.all_eq_true]
  intro x hx
  exact (List.mem_filter.mp hx).2

theorem replaceDegC_no_star :
    ∀ l : List Char, l.all (fun c => c != '*') = true →
      (replaceDegC l).all (fun c => c != '*') = true := by
  intro l
  induction l using replaceDegC.induct with
  | case1 => intro _; rfl
  | case2 rest ih =>
    intro h
    simp only [List.all_cons, Bool.and_eq_true] at h
    simp only [replaceDegC, List.all_append, Bool.and_eq_true]
    exact ⟨by decide, ih h.2.2⟩
  | case3 c rest hne ih =>
    intro h
    simp only [List.all_cons, Bool.and_eq_true] at h
    simp only [replaceDegC, List.all_cons, Bool.and_eq_true]
    exact ⟨h.1, ih h.2⟩

theorem charSub_no_star (a : Char) (l : List Char)
    (h : l.all (fun c => c != '*') = true) :
    (charSub a l).all (fun c => c != '*') = true := by
  simp only [charSub, List.all_map, List.all_eq_true, Function.comp] at *
  intro x hx
  have hx2 := h x hx
  by_cases hca : x == a
  · simp [hca]
  · simp [hca, hx2]

/-- C1, amended: the asterisk guarantee does hold — no output of the
normalizer contains an asterisk, since the markdown-stripping pass removes
them all and the later character substitutions never introduce one — but
the digit/hex/base64 guarantees fail, because those later passes can create
new violating tokens (see the counterexample `12**34` → `1234`). -/
theorem claimC1_amended :
    (∀ t : List Char, (preprocessL t).all (fun c => c != '*') = true) ∧
    preprocess_abbreviations "**Bold text**" = "Bold text" := by
  constructor
  · intro t
    simp only [preprocessL, tailPasses]
    apply charSub_no_star
    apply charSub_no_star
    apply charSub_no_star
    apply replaceDegC_no_star
    apply stripAsterisks_no_star
  · decide

theorem fmtOneDecimalE_ok_imp {num den : Nat} {d : List Char}
    (h : fmtOneDecimalE num den = Except.ok d) : fmtOneDecimal num den = d := by
  unfold fmtOneDecimalE at h
  unfold fmtOneDecimal
  cases hf : floatDiv num den with
  | error e => rw [hf] at h; simp at h
  | ok p =>
    obtain ⟨m, k⟩ := p
    rw [hf] at h
    simp only [Except.ok.injEq] at h
    exact h

theorem fmtChainE_ok_imp {num den : Nat} {S r : List Char}
    (h : (match fmtOneDecimalE num den with
          | Except.error e => Except.error e
          | Except.ok d => Except.ok (d ++ S)) = Except.ok r) :
    fmtOneDecimal num den ++ S = r := by
  cases hf : fmtOneDecimalE num den with
  | error e => rw [hf] at h; simp at h
  | ok d =>
    rw [hf] at h
    simp only [Except.ok.injEq] at h
    rw [fmtOneDecimalE_ok_imp hf, h]

theorem formatNumberValE_ok_imp {n : Nat} {g r : List Char}
    (h : formatNumberValE n g = Except.ok r) : formatNumberVal n g = r := by
  unfold formatNumberValE at h
  unfold formatNumberVal
  split_ifs at h ⊢ with h1 h2 h3 h4 h5 h6 h7 h8 h9
  all_goals try exact fmtChainE_ok_imp h
  all_goals simp only [Except.ok.injEq] at h
  all_goals exact h

theorem formatNumberE_ok_imp {g r : List Char} (h : formatNumberE g = Except.ok r) :
    formatNumber g = r := by
  unfold formatNumberE at h
  cases hi : intOfStrE g with
  | error e => rw [hi] at h; simp at h
  | ok n =>
    rw [hi] at h
    have hn : n = natOfDigits g := by
      unfold intOfStrE at hi
      split_ifs at hi with hc
      simp only [Except.ok.injEq] at hi
      exact hi.symm
    rw [formatNumber, ← hn]
    exact formatNumberValE_ok_imp h

/-- C3, counterexample: the magnitude rewrite is not total — on a
standalone token of 318 nines the value reaches the billion branch, the
float division `num / 1000000000` overflows the double range, and the
program raises `OverflowError` instead of rewriting the token. -/
theorem claimC3_counterexample :
    formatNumberE (List.replicate 318 '9') =
      Except.error "OverflowError: integer division result too large for a float" := by
  rfl

/-- C3, amended: for every matched digit token whose formatting does not
overflow, `format_number` rewrites the value by magnitude exactly as the
claim enumerates (with the one-decimal renderings computed through binary
floating point, faithfully modelled by `fmtOneDecimal`/`floatDiv`): the
total model equals the claim-worded case analysis on all digit strings,
every `ok` result of the exception-explicit formatter is that same value,
and end to end `Records: 1500000` becomes
`Records: 1 and a half million`; but a token of 318 or more digits whose
quotient exceeds the double range makes the program raise `OverflowError`
instead (see the counterexample). -/
theorem claimC3_amended :
    (∀ numStr : List Char, formatNumber numStr = specMagnitude (natOfDigits numStr) numStr) ∧
    (∀ numStr r, formatNumberE numStr = Except.ok r →
      r = specMagnitude (natOfDigits numStr) numStr) ∧
    preprocess_abbreviations "Records: 1500000" = "Records: 1 and a half million" := by
  have key : ∀ numStr : List Char,
      formatNumber numStr = specMagnitude (natOfDigits numStr) numStr := by
    intro numStr
    show formatNumberVal (natOfDigits numStr) numStr = _
    generalize natOfDigits numStr = n
    unfold formatNumberVal specMagnitude
    have e9 : (10 : Nat) ^ 9 = 1000000000 := by norm_num
    have e6 : (10 : Nat) ^ 6 = 1000000 := by norm_num
    have e5 : (10 : Nat) ^ 5 = 100000 := by norm_num
    rw [e9, e6, e5]
    simp only [Nat.dvd_iff_mod_eq_zero, beq_iff_eq, Bool.and_eq_true, decide_eq_true_eq]
  refine ⟨key, ?_, by decide⟩
  intro numStr r h
  rw [← key numStr]
  exact (formatNumberE_ok_imp h).symm

/-- C4: `format_decimal` rewrites a matched `digits* . digits+` token by
decimal-part length exactly as the claim states, and end to end
`Value: 0.5` becomes `Value: half`. -/
theorem claimC4_decimal :
    (∀ intStr decStr : List Char,
      formatDecimal intStr decStr = specDecimalWords (natOfDigits intStr) decStr) ∧
    preprocess_abbreviations "Value: 0.5" = "Value: half" := by
  constructor
  · intro intStr decStr
    unfold formatDecimal specDecimalWords
    simp only [beq_iff_eq]
  · decide

/-- C5: abbreviation expansion is whole-word for every rule of the table
and on both flanks — no table rule can fire right after a word character
(every rule's literal starts with a word character, so the leading `\\b`
fails), and none can fire when the character following the would-be match
is a word character (every rule's literal ends with a word character, so
the trailing `\\b` fails); in particular the `MB` rule alone leaves `MBps`
unchanged, the table lists `MBps` before `MB`, and end to end
`Transfer rate: 100 MBps` becomes `Transfer rate: 100 megabytes per second`. -/
theorem claimC5_wholeWord :
    (∀ p ∈ abbrevTable, ∀ (prev : Option Char) (c : Char) (cs : List Char),
      isWordOpt prev = true → tryLit p.1.data p.2.data prev c cs = none) ∧
    (∀ p ∈ abbrevTable, ∀ (prev : Option Char) (c : Char) (cs : List Char),
      isWordOpt ((cs.drop (p.1.data.length - 1)).head?) = true →
      tryLit p.1.data p.2.data prev c cs = none) ∧
    subScan (tryLit "MB".data "megabytes".data) "MBps".data = "MBps".data ∧
    abbrevTable.take 9 = (abbrevTable.take 8 ++ [("MB", "megabytes")]) ∧
    preprocess_abbreviations "Transfer rate: 100 MBps" = "Transfer rate: 100 megabytes per second" := by
  refine ⟨?_, ?_, by decide, by decide, by decide⟩
  · intro p hp prev c cs hprev
    have htab : abbrevTable.all
        (fun q => match q.1.data with | [] => false | c0 :: _ => isWordChar c0) = true := by
      decide
    have hfw := List.all_eq_true.mp htab p hp
    cases hl : p.1.data with
    | nil => rw [hl] at hfw; simp at hfw
    | cons l0 lt =>
      rw [hl] at hfw
      have hfw2 : isWordChar l0 = true := hfw
      by_cases hc : (c == l0) = true
      · have hcc : c = l0 := eq_of_beq hc
        subst hcc
        have hfc : isWordOpt (some c) = true := by simpa [isWordOpt] using hfw2
        have hb : boundaryB prev (some c) = false := by
          simp only [boundaryB]
          rw [hprev, hfc]
          decide
        simp [tryLit, hb]
      · simp [tryLit, hc]
  · intro p hp prev c cs hnext
    have htab2 : abbrevTable.all
        (fun q => match q.1.data with | [] => false | c0 :: lt => isWordChar (lt.getLastD c0)) = true := by
      decide
    have hlw := List.all_eq_true.mp htab2 p hp
    cases hl : p.1.data with
    | nil => rw [hl] at hlw; simp at hlw
    | cons l0 lt =>
      rw [hl] at hlw
      have hlw2 : isWordChar (lt.getLastD l0) = true := hlw
      rw [hl] at hnext
      have hlen : (l0 :: lt).length - 1 = lt.length := by simp
      rw [hlen] at hnext
      have hlw3 : isWordOpt (some (lt.getLast?.getD l0)) = true := by
        simpa [isWordOpt] using hlw2
      have hnext2 : isWordOpt cs[lt.length]? = true := by
        simpa using hnext
      have hb2 : boundaryB (some (lt.getLast?.getD l0)) cs[lt.length]? = false := by
        simp only [boundaryB]
        rw [hlw3, hnext2]
        decide
      simp [tryLit, hb2]

/-- C5, witness: both universal parts applied to the `MB` rule at the
occurrence of `MB` inside `xMBps` (word character before) and `MBps`
(word character after). -/
theorem claimC5_witness :
    tryLit "MB".data "megabytes".data (some 'x') 'M' "Bps".data = none ∧
    tryLit "MB".data "megabytes".data none 'M' "Bps".data = none :=
  ⟨claimC5_wholeWord.1 ("MB", "megabytes") (by decide) (some 'x') 'M' "Bps".data (by decide),
   claimC5_wholeWord.2.1 ("MB", "megabytes") (by decide) none 'M' "Bps".data (by decide)⟩

/-- C9, counterexample: the final clause of the claim ("normalize never
produces output containing the phrase 'hundred thousand'") is false as
stated — input that already contains the phrase passes through verbatim. -/
theorem claimC9_counterexample :
    preprocess_abbreviations "hundred thousand" = "hundred thousand" ∧
    containsSeq "hundred thousand".data (preprocessL "hundred thousand".data) = true := by
  refine ⟨by decide, by decide⟩

/-- C9, amended: the "hundred thousand" branch of `format_number` is indeed
unreachable — in the band 100000 ≤ n < 1000000 divisibility by 100000
implies divisibility by 1000, and the formatter returns clean thousands or
one-decimal millions, never "k hundred thousand"; the formatter cannot emit
the phrase, though the normalizer can echo input that already contains it. -/
theorem claimC9_amended (n : Nat) (numStr : List Char)
    (h1 : 100000 ≤ n) (h2 : n < 1000000) :
    (n % 100000 = 0 → n % 1000 = 0) ∧
    formatNumberVal n numStr =
      (if n % 1000 = 0 then natToChars (n / 1000) ++ " thousand".data
       else fmtOneDecimal n 1000000 ++ " million".data) := by
  constructor
  · omega
  · unfold formatNumberVal
    have hb : ¬ (1000000000 ≤ n) := by omega
    have hm : ¬ (1000000 ≤ n) := by omega
    rw [if_neg hb, if_neg hm, if_pos h1]
    by_cases h : n % 1000 = 0
    · have hd : n / 1000 < 1000 := by omega
      simp [h, hd]
    · have h5 : ¬ (n % 100000 = 0) := by omega
      simp [h, h5]

/-- C9, witness for the amended theorem at the exact multiple 300000 of
100000, rendered "300 thousand". -/
theorem claimC9_witness :
    (300000 % 100000 = 0 → 300000 % 1000 = 0) ∧
    formatNumberVal 300000 "300000".data =
      (if 300000 % 1000 = 0 then natToChars (300000 / 1000) ++ " thousand".data
       else fmtOneDecimal 300000 1000000 ++ " million".data) :=
  claimC9_amended 300000 "300000".data (by norm_num) (by norm_num)

theorem isB64Char_of_alnum {x : Char} (hx : (x.isAlpha || x.isDigit) = true) :
    isB64Char x = true := by
  rw [Bool.or_eq_true] at hx
  rcases hx with h | h <;> simp [isB64Char, h]

theorem isWordChar_of_alnum {x : Char} (hx : (x.isAlpha || x.isDigit) = true) :
    isWordChar x = true := by
  rw [Bool.or_eq_true] at hx
  rcases hx with h | h <;> simp [isWordChar, h]

theorem all_isB64Char_of_alnum {t : List Char}
    (ht : t.all (fun x => x.isAlpha || x.isDigit) = true) : t.all isB64Char = true := by
  rw [List.all_eq_true] at ht ⊢
  intro x hx
  exact isB64Char_of_alnum (ht x hx)

theorem getLastD_word_of_alnum {c : Char} {t : List Char}
    (hc : (c.isAlpha || c.isDigit) = true)
    (ht : t.all (fun x => x.isAlpha || x.isDigit) = true) :
    isWordChar (t.getLastD c) = true := by
  rcases List.mem_cons.mp (getLastD_mem t c) with h | h
  · rw [h]; exact isWordChar_of_alnum hc
  · exact isWordChar_of_alnum (List.all_eq_true.mp ht _ h)

theorem tryBase64_alnum_nil (c : Char) (t : List Char)
    (hc : (c.isAlpha || c.isDigit) = true)
    (ht : t.all (fun x => x.isAlpha || x.isDigit) = true)
    (h20 : 20 ≤ t.length + 1) :
    tryBase64 none c t = some ("encoded value".data, t.length, t.getLastD c) := by
  have htw : t.takeWhile isB64Char = t :=
    takeWhile_eq_self_of_all isB64Char t (all_isB64Char_of_alnum ht)
  have hdrop : t.drop t.length = [] := List.drop_length t
  have hb0 : boundaryB none (some c) = true := by
    simp [boundaryB, isWordOpt, isWordChar_of_alnum hc]
  have hw2 : isWordChar (t.getLast?.getD c) = true := by
    rw [← List.getLastD_eq_getLast?]
    exact getLastD_word_of_alnum hc ht
  have hbA : boundaryB (some (t.getLast?.getD c)) (none : Option Char) = true := by
    simp [boundaryB, isWordOpt, hw2]
  simp only [tryBase64, htw, hdrop, List.length_cons, hb0]
  simp [h20]
  exact ⟨isB64Char_of_alnum hc, by simp [hbA]⟩

theorem tryBase64_alnum_eq (c : Char) (t : List Char)
    (hc : (c.isAlpha || c.isDigit) = true)
    (ht : t.all (fun x => x.isAlpha || x.isDigit) = true)
    (h20 : 20 ≤ t.length + 1) :
    tryBase64 none c (t ++ ['=']) = some ("encoded value".data, t.length, t.getLastD c) := by
  have htw : (t ++ ['=']).takeWhile isB64Char = t := by
    rw [takeWhile_append_of_all isB64Char t ['='] (all_isB64Char_of_alnum ht)]
    have h0 : List.takeWhile isB64Char ['='] = [] := by decide
    rw [h0, List.append_nil]
  have hdrop : (t ++ ['=']).drop t.length = ['='] := List.drop_left t ['=']
  have hb0 : boundaryB none (some c) = true := by
    simp [boundaryB, isWordOpt, isWordChar_of_alnum hc]
  have hb1 : boundaryB (some '=') (none : Option Char) = false := by decide
  have hw2 : isWordChar (t.getLast?.getD c) = true := by
    rw [← List.getLastD_eq_getLast?]
    exact getLastD_word_of_alnum hc ht
  have he : isWordChar '=' = false := by decide
  have hbA : boundaryB (some (t.getLast?.getD c)) (some '=') = true := by
    simp [boundaryB, isWordOpt, hw2, he]
  simp only [tryBase64, htw, hdrop, List.length_cons, hb0]
  simp [h20]
  exact ⟨isB64Char_of_alnum hc, by simp [hb1, hbA]⟩

theorem tryBase64_alnum_eqeqx (c : Char) (t : List Char)
    (hc : (c.isAlpha || c.isDigit) = true)
    (ht : t.all (fun x => x.isAlpha || x.isDigit) = true)
    (h20 : 20 ≤ t.length + 1) :
    tryBase64 none c (t ++ ['=', '=', 'x']) =
      some ("encoded value".data, t.length + 2, '=') := by
  have htw : (t ++ ['=', '=', 'x']).takeWhile isB64Char = t := by
    rw [takeWhile_append_of_all isB64Char t ['=', '=', 'x'] (all_isB64Char_of_alnum ht)]
    have h0 : List.takeWhile isB64Char ['=', '=', 'x'] = [] := by decide
    rw [h0, List.append_nil]
  have hdrop : (t ++ ['=', '=', 'x']).drop t.length = ['=', '=', 'x'] := List.drop_left t _
  have hb0 : boundaryB none (some c) = true := by
    simp [boundaryB, isWordOpt, isWordChar_of_alnum hc]
  have hb2 : boundaryB (some '=') (some 'x') = true := by decide
  simp only [tryBase64, htw, hdrop, List.length_cons, hb0]
  simp [h20]
  exact ⟨isB64Char_of_alnum hc, by simp [hb2]⟩

theorem base64Scan_alnum (rs : List Char) (h20 : 20 ≤ rs.length)
    (hal : rs.all (fun x => x.isAlpha || x.isDigit) = true) :
    subScan tryBase64 rs = "encoded value".data := by
  cases rs with
  | nil => simp at h20
  | cons c t =>
    rw [List.all_cons, Bool.and_eq_true] at hal
    rw [subScan, List.length_cons,
      subScanF_succ_match (tryBase64_alnum_nil c t hal.1 hal.2 (by simpa using h20)),
      List.drop_length, subScanF_nil, List.append_nil]

theorem base64Scan_alnum_eq (rs : List Char) (h20 : 20 ≤ rs.length)
    (hal : rs.all (fun x => x.isAlpha || x.isDigit) = true) :
    subScan tryBase64 (rs ++ ['=']) = "encoded value=".data := by
  cases rs with
  | nil => simp at h20
  | cons c t =>
    rw [List.all_cons, Bool.and_eq_true] at hal
    rw [subScan]
    have hlen : ((c :: t) ++ ['=']).length = (t.length + 1) + 1 := by simp
    rw [hlen, List.cons_append,
      subScanF_succ_match (tryBase64_alnum_eq c t hal.1 hal.2 (by simpa using h20)),
      List.drop_left t ['=']]
    rw [subScanF_succ_nomatch
      (by simp [tryBase64, (by decide : isB64Char '=' = false)] :
        tryBase64 (some (t.getLastD c)) '=' [] = none)]
    rw [subScanF_nil]
    decide

theorem base64Scan_alnum_eqeqx (rs : List Char) (h20 : 20 ≤ rs.length)
    (hal : rs.all (fun x => x.isAlpha || x.isDigit) = true) :
    subScan tryBase64 (rs ++ ['=', '=', 'x']) = "encoded valuex".data := by
  cases rs with
  | nil => simp at h20
  | cons c t =>
    rw [List.all_cons, Bool.and_eq_true] at hal
    rw [subScan]
    have hlen : ((c :: t) ++ ['=', '=', 'x']).length = (t.length + 3) + 1 := by simp
    rw [hlen, List.cons_append,
      subScanF_succ_match (tryBase64_alnum_eqeqx c t hal.1 hal.2 (by simpa using h20))]
    have hdrop : (t ++ ['=', '=', 'x']).drop (t.length + 2) = ['x'] := by
      simp
    rw [hdrop]
    have h3 : t.length + 3 = (t.length + 2) + 1 := by omega
    rw [h3, subScanF_succ_nomatch (by decide : tryBase64 (some '=') 'x' [] = none),
      subScanF_nil]
    decide

/-- C6, counterexample: a word-bounded run of 20 characters from
`[A-Za-z0-9+/]` that is NOT replaced by "encoded value" — twenty lowercase
`a` form a hex-looking run, so the bare-hex rule of source line 131
(running before the base64 rule of line 145) replaces it with `-`. -/
theorem claimC6_counterexample :
    preprocess_abbreviations (String.mk (List.replicate 20 'a')) = "-" ∧
    containsSeq "encoded value".data (preprocessL (List.replicate 20 'a')) = false := by
  refine ⟨by decide, by decide⟩

/-- C6, amended: at the base64 redaction pass itself the claim holds — for
every standalone run of 20 or more alphanumeric characters the pass yields
"encoded value"; at most two trailing `=` are consumed (and only when the
`=` is followed by a word character, since the trailing `\\b` must hold
after it), an unconsumed trailing `=` survives (string-final `=`, and all
three of `===`), and the self-check pipeline case holds end to end; but a
qualifying run can be consumed by an earlier pass first (see the
counterexample: twenty `a` become `-` via the bare-hex rule). -/
theorem claimC6_amended :
    (∀ rs : List Char, 20 ≤ rs.length → rs.all (fun x => x.isAlpha || x.isDigit) = true →
      subScan tryBase64 rs = "encoded value".data) ∧
    (∀ rs : List Char, 20 ≤ rs.length → rs.all (fun x => x.isAlpha || x.isDigit) = true →
      subScan tryBase64 (rs ++ ['=']) = "encoded value=".data) ∧
    (∀ rs : List Char, 20 ≤ rs.length → rs.all (fun x => x.isAlpha || x.isDigit) = true →
      subScan tryBase64 (rs ++ ['=', '=', 'x']) = "encoded valuex".data) ∧
    subScan tryBase64 (List.replicate 20 'A' ++ ['=', '=', '=']) = "encoded value===".data ∧
    preprocess_abbreviations "Token: YWJjZGVmZ2hpams1Njc4OTA=" = "Token: encoded value=" := by
  refine ⟨base64Scan_alnum, base64Scan_alnum_eq, base64Scan_alnum_eqeqx, by decide, by decide⟩

/-- C6, witness: the three quantified parts of the amended theorem applied
at the mixed alphanumeric run `B2c4e6g8i0B2c4e6g8i0Z` of length 21. -/
theorem claimC6_witness :
    subScan tryBase64 "B2c4e6g8i0B2c4e6g8i0Z".data = "encoded value".data ∧
    subScan tryBase64 ("B2c4e6g8i0B2c4e6g8i0Z".data ++ ['=']) = "encoded value=".data ∧
    subScan tryBase64 ("B2c4e6g8i0B2c4e6g8i0Z".data ++ ['=', '=', 'x']) = "encoded valuex".data :=
  ⟨claimC6_amended.1 "B2c4e6g8i0B2c4e6g8i0Z".data (by decide) (by decide),
   claimC6_amended.2.1 "B2c4e6g8i0B2c4e6g8i0Z".data (by decide) (by decide),
   claimC6_amended.2.2.1 "B2c4e6g8i0B2c4e6g8i0Z".data (by decide) (by decide)⟩

/- Soundness of the match extractors: every digit group handed to a
replacement function is a genuine digit string, so Python `int` cannot
raise on it. -/

theorem all_takeWhile (p : Char → Bool) :
    ∀ l : List Char, ((l.takeWhile p).all p) = true := by
  intro l
  induction l with
  | nil => rfl
  | cons c cs ih =>
    rw [List.takeWhile_cons]
    by_cases h : p c = true
    · simp [h, ih]
    · simp [h]

theorem numMatch_sound {prev : Option Char} {c : Char} {cs g : List Char} {j : Nat} {lc : Char}
    (h : numMatch prev c cs = some (g, j, lc)) :
    g.isEmpty = false ∧ g.all Char.isDigit = true := by
  simp only [numMatch] at h
  split_ifs at h with h1 h2
  rw [Option.some.injEq, Prod.mk.injEq, Prod.mk.injEq] at h
  obtain ⟨h3, _, _⟩ := h
  subst h3
  rw [Bool.and_eq_true] at h1
  simp [List.all_cons, h1.1, all_takeWhile]

theorem decMatch_sound {prev : Option Char} {c : Char} {cs : List Char}
    {g1 g2 : List Char} {j : Nat} {lc : Char}
    (h : decMatch prev c cs = some ((g1, g2), j, lc)) :
    (g1 = [] ∨ (g1.isEmpty = false ∧ g1.all Char.isDigit = true)) ∧
    g2.isEmpty = false ∧ g2.all Char.isDigit = true := by
  simp only [decMatch] at h
  split_ifs at h with h1 h2 h3
  · split at h
    · split_ifs at h with h4
      rw [Option.some.injEq, Prod.mk.injEq, Prod.mk.injEq, Prod.mk.injEq] at h
      obtain ⟨⟨h5, h6⟩, _, _⟩ := h
      subst h5
      subst h6
      rw [Bool.and_eq_true] at h1 h4
      refine ⟨Or.inr ⟨rfl, by simp [List.all_cons, h1.1, all_takeWhile]⟩, ?_,
        all_takeWhile Char.isDigit _⟩
      simpa using h4.1
    · exact absurd h (by simp)
  · rw [Option.some.injEq, Prod.mk.injEq, Prod.mk.injEq, Prod.mk.injEq] at h
    obtain ⟨⟨h5, h6⟩, _, _⟩ := h
    subst h5
    subst h6
    rw [Bool.and_eq_true] at h3
    refine ⟨Or.inl rfl, ?_, all_takeWhile Char.isDigit _⟩
    simpa using h3.1

theorem formatDecimalE_ok (g1 g2 : List Char)
    (hi : g1 = [] ∨ (g1.isEmpty = false ∧ g1.all Char.isDigit = true))
    (h1 : g2.isEmpty = false) (h2 : g2.all Char.isDigit = true) :
    formatDecimalE g1 g2 = Except.ok (formatDecimal g1 g2) := by
  rcases hi with rfl | ⟨hi1, hi2⟩
  · by_cases hl : (g2.length == 1 || g2.length == 2) = true
    · simp [formatDecimalE, intOfStrE, h1, h2, hl]
    · simp [formatDecimalE, intOfStrE, h1, h2, hl]
  · by_cases hl : (g2.length == 1 || g2.length == 2) = true
    · simp [formatDecimalE, intOfStrE, h1, h2, hi1, hi2, hl]
    · simp [formatDecimalE, intOfStrE, h1, h2, hi1, hi2, hl]

theorem tryDecimalE_rel (prev : Option Char) (c : Char) (cs : List Char) :
    tryDecimalE prev c cs = Option.map (fun x => (Except.ok x.1, x.2)) (tryDecimal prev c cs) := by
  unfold tryDecimalE tryDecimal
  cases h : decMatch prev c cs with
  | none => rfl
  | some x =>
    obtain ⟨⟨g1, g2⟩, j, lc⟩ := x
    obtain ⟨hi, h1, h2⟩ := decMatch_sound h
    simp [Option.map, formatDecimalE_ok g1 g2 hi h1 h2]

theorem tryNumberE_none {prev : Option Char} {c : Char} {cs : List Char}
    (h : tryNumberE prev c cs = none) : tryNumber prev c cs = none := by
  unfold tryNumberE at h
  unfold tryNumber
  cases hm : numMatch prev c cs with
  | none => rfl
  | some x => rw [hm] at h; simp at h

theorem tryNumberE_some {prev : Option Char} {c : Char} {cs : List Char}
    {e : Except String (List Char)} {j : Nat} {lc : Char}
    (h : tryNumberE prev c cs = some (e, j, lc)) :
    ∃ rl, tryNumber prev c cs = some (rl, j, lc) ∧ ∀ r2, e = Except.ok r2 → r2 = rl := by
  unfold tryNumberE at h
  cases hm : numMatch prev c cs with
  | none => rw [hm] at h; simp at h
  | some x =>
    obtain ⟨g, j2, lc2⟩ := x
    rw [hm] at h
    simp only [Option.map, Option.some.injEq, Prod.mk.injEq] at h
    obtain ⟨he, hj, hlc⟩ := h
    refine ⟨formatNumber g, ?_, ?_⟩
    · unfold tryNumber
      rw [hm]
      simp [hj, hlc]
    · intro r2 h2
      rw [← he] at h2
      exact (formatNumberE_ok_imp h2).symm

theorem tryDecimalE_none {prev : Option Char} {c : Char} {cs : List Char}
    (h : tryDecimalE prev c cs = none) : tryDecimal prev c cs = none := by
  rw [tryDecimalE_rel] at h
  cases hm : tryDecimal prev c cs with
  | none => rfl
  | some x => rw [hm] at h; simp at h

theorem tryDecimalE_some {prev : Option Char} {c : Char} {cs : List Char}
    {e : Except String (List Char)} {j : Nat} {lc : Char}
    (h : tryDecimalE prev c cs = some (e, j, lc)) :
    ∃ rl, tryDecimal prev c cs = some (rl, j, lc) ∧ ∀ r2, e = Except.ok r2 → r2 = rl := by
  rw [tryDecimalE_rel] at h
  cases hm : tryDecimal prev c cs with
  | none => rw [hm] at h; simp at h
  | some x =>
    obtain ⟨rl, j2, lc2⟩ := x
    rw [hm] at h
    simp only [Option.map, Option.some.injEq, Prod.mk.injEq] at h
    obtain ⟨he, hj, hlc⟩ := h
    refine ⟨rl, by simp [hj, hlc], ?_⟩
    intro r2 h2
    rw [← he] at h2
    simp only [Except.ok.injEq] at h2
    exact h2.symm

theorem subScanFE_ok_imp
    (f : Option Char → Char → List Char → Option (Except String (List Char) × Nat × Char))
    (g : Option Char → Char → List Char → Option (List Char × Nat × Char))
    (hnone : ∀ prev c cs, f prev c cs = none → g prev c cs = none)
    (hsome : ∀ prev c cs e j lc, f prev c cs = some (e, j, lc) →
      ∃ rl, g prev c cs = some (rl, j, lc) ∧ ∀ r2, e = Except.ok r2 → r2 = rl) :
    ∀ (fuel : Nat) (prev : Option Char) (t r : List Char),
      subScanFE f fuel prev t = Except.ok r → subScanF g fuel prev t = r := by
  intro fuel
  induction fuel with
  | zero =>
    intro prev t r h
    cases t with
    | nil =>
      simp only [subScanFE, Except.ok.injEq] at h
      rw [← h]
      rfl
    | cons c cs =>
      simp only [subScanFE, Except.ok.injEq] at h
      rw [← h]
      rfl
  | succ n ih =>
    intro prev t r h
    cases t with
    | nil =>
      simp only [subScanFE, Except.ok.injEq] at h
      rw [subScanF_nil, h]
    | cons c cs =>
      cases hf : f prev c cs with
      | none =>
        have hg := hnone _ _ _ hf
        rw [subScanF_succ_nomatch hg]
        simp only [subScanFE, hf] at h
        cases hrec : subScanFE f n (some c) cs with
        | error e2 => rw [hrec] at h; simp at h
        | ok rest2 =>
          rw [hrec] at h
          simp only [Except.ok.injEq] at h
          rw [ih (some c) cs rest2 hrec]
          exact h
      | some x =>
        obtain ⟨e, j, lc⟩ := x
        obtain ⟨rl, hg, hagree⟩ := hsome _ _ _ _ _ _ hf
        rw [subScanF_succ_match hg]
        simp only [subScanFE, hf] at h
        cases e with
        | error err => simp at h
        | ok r2 =>
          cases hrec : subScanFE f n (some lc) (cs.drop j) with
          | error e2 => rw [hrec] at h; simp at h
          | ok rest2 =>
            rw [hrec] at h
            simp only [Except.ok.injEq] at h
            rw [ih (some lc) (cs.drop j) rest2 hrec]
            rw [hagree r2 rfl] at h
            exact h

theorem preprocessLE_ok_imp {t r : List Char} (h : preprocessLE t = Except.ok r) :
    preprocessL t = r := by
  unfold preprocessLE at h
  cases h1 : subScanE tryNumberE (abbrevPass t) with
  | error e => rw [h1] at h; simp at h
  | ok t1 =>
    rw [h1] at h
    have h3 : (match subScanE tryDecimalE t1 with
        | Except.error e => Except.error e
        | Except.ok t2 => Except.ok (tailPasses t2)) = Except.ok r := h
    cases h2 : subScanE tryDecimalE t1 with
    | error e => rw [h2] at h3; simp at h3
    | ok t2 =>
      rw [h2] at h3
      simp only [Except.ok.injEq] at h3
      have e1 : subScan tryNumber (abbrevPass t) = t1 :=
        subScanFE_ok_imp tryNumberE tryNumber
          (fun prev c cs hn => tryNumberE_none hn)
          (fun prev c cs e j lc hs => tryNumberE_some hs)
          _ none _ t1 h1
      have e2 : subScan tryDecimal t1 = t2 :=
        subScanFE_ok_imp tryDecimalE tryDecimal
          (fun prev c cs hn => tryDecimalE_none hn)
          (fun prev c cs e j lc hs => tryDecimalE_some hs)
          _ none _ t2 h2
      rw [preprocessL, e1, e2]
      exact h3

/-- C7, counterexample: the normalizer is not exception-free — on a
standalone token of 320 sevens the number pass matches, the value reaches
the billion branch, and the float division `num / 1000000000` raises
`OverflowError`, which propagates out of `preprocess_abbreviations`. -/
theorem claimC7_counterexample :
    preprocess_abbreviationsE (String.mk (List.replicate 320 '7')) =
      Except.error "OverflowError: integer division result too large for a float" := by
  rfl

/-- C7, amended: the claimed totality fails only through float overflow
(see the counterexample): every `int()` conversion the matched groups feed
is on a nonempty all-digit string and succeeds, and whenever the
exception-explicit pipeline returns a value at all, that value is exactly
the output of the total embedding, as on the end-to-end example. -/
theorem claimC7_amended :
    (∀ (s t : String), preprocess_abbreviationsE s = Except.ok t →
      preprocess_abbreviations s = t) ∧
    (∀ (prev : Option Char) (c : Char) (cs g : List Char) (j : Nat) (lc : Char),
      numMatch prev c cs = some (g, j, lc) → intOfStrE g = Except.ok (natOfDigits g)) ∧
    (∀ (prev : Option Char) (c : Char) (cs g1 g2 : List Char) (j : Nat) (lc : Char),
      decMatch prev c cs = some ((g1, g2), j, lc) →
      formatDecimalE g1 g2 = Except.ok (formatDecimal g1 g2)) ∧
    preprocess_abbreviationsE "Records: 1500000" = Except.ok "Records: 1 and a half million" := by
  refine ⟨?_, ?_, ?_, by rfl⟩
  · intro s t h
    unfold preprocess_abbreviationsE at h
    cases hp : preprocessLE s.data with
    | error e => rw [hp] at h; simp at h
    | ok u =>
      rw [hp] at h
      simp only [Except.ok.injEq] at h
      show String.mk (preprocessL s.data) = t
      rw [preprocessLE_ok_imp hp]
      exact h
  · intro prev c cs g j lc h
    obtain ⟨h1, h2⟩ := numMatch_sound h
    simp [intOfStrE, h1, h2]
  · intro prev c cs g1 g2 j lc h
    obtain ⟨hi, h1, h2⟩ := decMatch_sound h
    exact formatDecimalE_ok g1 g2 hi h1 h2

/-- C7, witness: the three quantified parts of the amended theorem applied
to the word `abc`, to the number match on `1234`, and to the decimal
match on `0.5`. -/
theorem claimC7_witness :
    preprocess_abbreviations "abc" = "abc" ∧
    intOfStrE "1234".data = Except.ok 1234 ∧
    formatDecimalE "0".data "5".data = Except.ok (formatDecimal "0".data "5".data) := by
  refine ⟨claimC7_amended.1 "abc" "abc" (by rfl), ?_, ?_⟩
  · exact claimC7_amended.2.1 none '1' "234".data "1234".data 3 '4' (by decide)
  · exact claimC7_amended.2.2.1 none '0' ".5".data "0".data "5".data 2 '5' (by decide)

/-- C3, witness: the `ok`-refinement part of the amended theorem applied to
the token `1500000`. -/
theorem claimC3_witness :
    "1.5 million".data = specMagnitude (natOfDigits "1500000".data) "1500000".data :=
  claimC3_amended.2.1 "1500000".data "1.5 million".data (by rfl)
